import Mathlib

/-!
Verification of the Nyx shell-command agent against its specification.

The definitions below are a shallow embedding of the Python sources:
  * `src/agents/command_validator.py` — safety classifier and plan normalizer
  * `src/agents/command_executor.py`  — step executor with audit logging
  * `src/agents/history_manager.py`   — history size estimation and compression
  * `src/agents/main_agent.py`        — plan execution and the control loop

Pure Python functions become Lean functions; external effects (the language
model backend, the subprocess spawn, interactive prompts) are passed in as
oracle parameters, and raised Python exceptions become `Except` errors.
-/

/-! ## Command safety classifier (`src/agents/command_validator.py`) -/

/-- The allow-set `ALLOWED_COMMANDS` (a Python `set`; modelled as a list,
membership is what matters). -/
def ALLOWED_COMMANDS : List String :=
  [ -- Package managers
   "pacman", "apt-get", "apt", "yum", "dnf", "zypper", "emerge",
   -- File operations (safe ones)
   "ls", "find", "which", "whereis", "file", "stat", "du", "df",
   -- System info
   "uname", "whoami", "id", "ps", "top", "htop", "free", "uptime",
   -- Text operations
   "cat", "head", "tail", "grep", "wc", "sort", "uniq",
   -- Network (read-only)
   "ping", "wget", "curl", "ssh",
   -- Development tools
   "python", "python3", "pip", "pip3", "node", "npm", "git",
   -- System services
   "systemctl", "service", "sudo"]

/-- The deny-set `DANGEROUS_COMMANDS`. -/
def DANGEROUS_COMMANDS : List String :=
  ["rm", "rmdir", "dd", "mkfs", "fdisk", "parted", "shred",
   "chmod", "chown", "su", "passwd", "usermod", "userdel",
   "iptables", "firewall-cmd", "ufw"]

/-- The reduced safe-target set `SAFE_SUDO_COMMANDS`. -/
def SAFE_SUDO_COMMANDS : List String :=
  ["pacman", "apt-get", "apt", "yum", "dnf", "systemctl", "service"]

/-- Boolean list-prefix test. -/
def listIsPrefix : List Char → List Char → Bool
  | [], _ => true
  | _ :: _, [] => false
  | a :: as, b :: bs => a = b && listIsPrefix as bs

/-- Boolean list-infix test: `needle` occurs contiguously in the haystack. -/
def listIsInfix (needle : List Char) : List Char → Bool
  | [] => needle.isEmpty
  | c :: cs => listIsPrefix needle (c :: cs) || listIsInfix needle cs

/-- Python's `needle in hay` substring test on strings. -/
def strContains (hay needle : String) : Bool :=
  listIsInfix needle.toList hay.toList

/-- `_check_basic_command_safety`: deny-set first, then allow-set. -/
def check_basic_command_safety (command : String) : Bool × String :=
  if DANGEROUS_COMMANDS.contains command then
    (false, "Command '" ++ command ++ "' is in the dangerous commands list")
  else if ¬ ALLOWED_COMMANDS.contains command then
    (false, "Command '" ++ command ++ "' is not in the allowed commands list")
  else
    (true, "Command is safe")

/-- The `dangerous_flags` set scanned for by substring containment. -/
def dangerous_flags : List String := ["-rf", "--force", "--no-preserve-root"]

/-- `_validate_sudo_command`: first argument must be a safe sudo target and no
argument may contain a dangerous flag as a substring.  The Python `for` loop
returns on the first offending argument, which is `List.find?`. -/
def validate_sudo_command (args : List String) : Bool × String :=
  match args with
  | [] => (false, "Sudo command requires arguments")
  | actual_command :: _ =>
    if ¬ SAFE_SUDO_COMMANDS.contains actual_command then
      (false, "Sudo with '" ++ actual_command ++ "' is not allowed")
    else
      match args.find? (fun arg => dangerous_flags.any (fun flag => strContains arg flag)) with
      | some arg => (false, "Dangerous flag detected: " ++ arg)
      | none => (true, "Sudo command is safe")

/-- `validate_command_safety`: the classifier.  The verdict is the boolean
component (`true` = Allowed, `false` = Denied with the reason string). -/
def validate_command_safety (command : String) (args : List String) : Bool × String :=
  let basic := check_basic_command_safety command
  if ¬ basic.1 then basic
  else if command = "sudo" then validate_sudo_command args
  else (true, "Command is safe")

/-! ## POSIX tokenization (`shlex.split`, used by the normalizer)

`shlex.split` runs the `shlex` lexer in POSIX mode with `whitespace_split`
set and comments disabled.  The state machine below mirrors
`shlex.read_token` for that configuration: whitespace separates tokens,
single quotes are fully literal, double quotes are literal except that a
backslash escapes `"` and `\` (and is otherwise kept), and a backslash
outside quotes makes the next character literal.  An unterminated quote or a
trailing escape raises `ValueError`, modelled as `none`. -/

inductive ShlexState where
  | ready     -- between tokens
  | word      -- inside an unquoted token
  | squote    -- inside single quotes
  | dquote    -- inside double quotes
  | escWord   -- after a backslash outside quotes
  | escDquote -- after a backslash inside double quotes
deriving DecidableEq

/-- Whitespace characters of `shlex` (`shlex.whitespace = " \t\r\n"`). -/
def shlexWhitespace (c : Char) : Bool :=
  c = ' ' ∨ c = '\t' ∨ c = '\r' ∨ c = '\n'

/-- Core loop of `shlex.split`.  `tok` is the current token (reversed),
`started` records whether a token is in progress (so that `''` yields an
empty token), `acc` holds finished tokens (reversed). -/
def shlexRun : List Char → ShlexState → List Char → Bool → List String → Option (List String)
  | [], .ready, _, _, acc => some acc.reverse
  | [], .word, tok, _, acc => some ((String.mk tok.reverse :: acc).reverse)
  | [], .squote, _, _, _ => none
  | [], .dquote, _, _, _ => none
  | [], .escWord, _, _, _ => none
  | [], .escDquote, _, _, _ => none
  | c :: cs, .ready, tok, started, acc =>
    if shlexWhitespace c then shlexRun cs .ready tok started acc
    else if c = '\'' then shlexRun cs .squote [] true acc
    else if c = '"' then shlexRun cs .dquote [] true acc
    else if c = '\\' then shlexRun cs .escWord [] true acc
    else shlexRun cs .word [c] true acc
  | c :: cs, .word, tok, started, acc =>
    if shlexWhitespace c then shlexRun cs .ready [] false (String.mk tok.reverse :: acc)
    else if c = '\'' then shlexRun cs .squote tok started acc
    else if c = '"' then shlexRun cs .dquote tok started acc
    else if c = '\\' then shlexRun cs .escWord tok started acc
    else shlexRun cs .word (c :: tok) started acc
  | c :: cs, .squote, tok, started, acc =>
    if c = '\'' then shlexRun cs .word tok started acc
    else shlexRun cs .squote (c :: tok) started acc
  | c :: cs, .dquote, tok, started, acc =>
    if c = '"' then shlexRun cs .word tok started acc
    else if c = '\\' then shlexRun cs .escDquote tok started acc
    else shlexRun cs .dquote (c :: tok) started acc
  | c :: cs, .escWord, tok, started, acc =>
    shlexRun cs .word (c :: tok) started acc
  | c :: cs, .escDquote, tok, started, acc =>
    if c = '"' ∨ c = '\\' then shlexRun cs .dquote (c :: tok) started acc
    else shlexRun cs .dquote (c :: '\\' :: tok) started acc

/-- `shlex.split` in POSIX mode; `none` models a raised `ValueError`. -/
def shlex_split (s : String) : Option (List String) :=
  shlexRun s.toList .ready [] false []

example : shlex_split "ls -la /tmp" = some ["ls", "-la", "/tmp"] := by decide
example : shlex_split "'a b' c" = some ["a b", "c"] := by decide
example : shlex_split "" = some [] := by decide
example : shlex_split "'a" = none := by decide

/-! ## Python values and the plan normalizer (`src/agents/command_validator.py`)

Plans come from `json.loads`, so step values range over JSON-shaped Python
values.  Python exceptions raised while normalizing (`TypeError` from
`" " in raw_cmd` on a number, `ValueError` from `shlex`, `IndexError` from
`parts[0]`, `AttributeError` from `shlex.split` on a non-string) are
modelled with `Except`. -/

inductive JVal where
  | jnull
  | jbool (b : Bool)
  | jnum (n : Int)
  | jstr (s : String)
  | jarr (xs : List JVal)
  | jobj (fields : List (String × JVal))

inductive PyErr where
  | typeError
  | valueError
  | indexError
  | attributeError
deriving DecidableEq

/-- Python truthiness of a JSON-shaped value. -/
def pyTruthy : JVal → Bool
  | .jnull => false
  | .jbool b => b
  | .jnum n => n ≠ 0
  | .jstr s => s ≠ ""
  | .jarr xs => ¬ xs.isEmpty
  | .jobj fs => ¬ fs.isEmpty

/-- `dict.get(k, default)` without the default: first binding of the key. -/
def lookupField (fields : List (String × JVal)) (k : String) : Option JVal :=
  (fields.find? (fun p => p.1 = k)).map (fun p => p.2)

/-- `d[k] = v` on an existing-or-absent key: Python replaces the value in
place, keeping key order.  (`normalize_plan` only ever assigns to the
existing key `"plan"`, so mapping over the bindings is faithful.) -/
def setField (fields : List (String × JVal)) (k : String) (v : JVal) :
    List (String × JVal) :=
  fields.map (fun p => if p.1 = k then (k, v) else p)

/-- Python's `" " in x` for the values `raw_cmd` can take: substring test on
strings, element test on lists, key test on dicts, `TypeError` on numbers and
booleans (and on `None`, unreachable behind the truthiness guard). -/
def pyContainsSpace : JVal → Except PyErr Bool
  | .jstr s => .ok (s.toList.contains ' ')
  | .jarr xs => .ok (xs.any (fun x => match x with | .jstr s => s = " " | _ => false))
  | .jobj fs => .ok (fs.any (fun p => p.1 = " "))
  | .jnum _ => .error .typeError
  | .jbool _ => .error .typeError
  | .jnull => .error .typeError

/-- `_normalize_string_step`: tokenize with `shlex.split`; an empty token
list yields `("", [])`. -/
def normalize_string_step (step : String) : Except PyErr (JVal × List JVal) :=
  match shlex_split step with
  | none => .error .valueError
  | some [] => .ok (.jstr "", [])
  | some (c :: rest) => .ok (.jstr c, rest.map JVal.jstr)

/-- Second half of `_normalize_dict_step` (the `if raw_cmd and " " in
raw_cmd:` block, source lines 97-102): a truthy command containing a space
is re-tokenized, the first token becomes the command and the remaining
tokens are prepended to the args. -/
def normalize_dict_cmd_split (raw_cmd : JVal) (raw_args : List JVal) :
    Except PyErr (JVal × List JVal) :=
  if pyTruthy raw_cmd then
    match pyContainsSpace raw_cmd with
    | .error e => .error e
    | .ok hasSpace =>
      if hasSpace then
        match raw_cmd with
        | .jstr s =>
          match shlex_split s with
          | none => .error .valueError
          | some [] => .error .indexError      -- parts[0] on an empty list
          | some (c :: rest) => .ok (.jstr c, rest.map JVal.jstr ++ raw_args)
        | _ => .error .attributeError          -- shlex.split on a non-string
      else
        .ok (raw_cmd, raw_args)
  else
    .ok (raw_cmd, raw_args)

/-- `_normalize_dict_step`: `raw_args` coercion (source lines 89-95)
followed by the command-splitting block.  Note that when `raw_args` is
already a list its entries pass through unvalidated — there is no
all-entries-are-strings check in the source. -/
def normalize_dict_step (fields : List (String × JVal)) :
    Except PyErr (JVal × List JVal) :=
  let raw_cmd := (lookupField fields "command").getD (.jstr "")
  match (lookupField fields "args").getD (.jarr []) with
  | .jstr s =>
    match shlex_split s with
    | some toks => normalize_dict_cmd_split raw_cmd (toks.map JVal.jstr)
    | none => .error .valueError
  | .jarr xs => normalize_dict_cmd_split raw_cmd xs
  | _ => normalize_dict_cmd_split raw_cmd []

/-- The shell-operator tokens banned by `_is_step_safe`. -/
def bannedTokens : List String := ["&&", "||", ";", "|", ">", "<"]

/-- `_is_step_safe`: token-equality check (`t in banned` is `False` for any
non-string token). -/
def is_step_safe (cmd : JVal) (args : List JVal) : Bool :=
  ¬ (cmd :: args).any (fun t =>
      match t with | .jstr s => bannedTokens.contains s | _ => false)

/-- Tail of `_process_single_step`: drop unsafe steps and steps with a
falsy command. -/
def step_checks (cmd : JVal) (args : List JVal) : Option (JVal × List JVal) :=
  if ¬ is_step_safe cmd args then none
  else if pyTruthy cmd then some (cmd, args) else none

/-- `_process_single_step`: dispatch on the runtime type of the step, then
apply the safety/truthiness checks. -/
def process_single_step (step : JVal) : Except PyErr (Option (JVal × List JVal)) :=
  match step with
  | .jstr s =>
    match normalize_string_step s with
    | .error e => .error e
    | .ok ca => .ok (step_checks ca.1 ca.2)
  | .jobj fields =>
    match normalize_dict_step fields with
    | .error e => .error e
    | .ok ca => .ok (step_checks ca.1 ca.2)
  | _ => .ok none

/-- The `for` loop of `normalize_plan`: process steps in order, keep the
survivors as `{"command": cmd, "args": args}` objects. -/
def process_steps : List JVal → Except PyErr (List JVal)
  | [] => .ok []
  | step :: rest =>
    match process_single_step step with
    | .error e => .error e
    | .ok r =>
      match process_steps rest with
      | .error e => .error e
      | .ok tail =>
        match r with
        | some (cmd, args) =>
          .ok (.jobj [("command", cmd), ("args", .jarr args)] :: tail)
        | none => .ok tail

/-- `normalize_plan`: guard on the shape of the input, then rewrite the
`"plan"` entry. -/
def normalize_plan (plan_data : JVal) : Except PyErr JVal :=
  match plan_data with
  | .jobj fields =>
    match lookupField fields "plan" with
    | some (.jarr steps) =>
      match process_steps steps with
      | .error e => .error e
      | .ok normalized => .ok (.jobj (setField fields "plan" (.jarr normalized)))
    | _ => .ok plan_data
  | _ => .ok plan_data

/-! ## Conversation history (`src/agents/history_manager.py`)

History entries are the dicts `{"role": ..., "content": ...}` built by the
agent.  `estimate_context_size` is `len(json.dumps(history))`, so the JSON
serialization (default `json.dumps`: `", "`/`": "` separators, ASCII-only
output) is reproduced character for character. -/

/-- Python's `str.strip()` whitespace (ASCII part). -/
def pyIsSpace (c : Char) : Bool :=
  c = ' ' ∨ c = '\t' ∨ c = '\n' ∨ c = '\r' ∨ c = Char.ofNat 11 ∨ c = Char.ofNat 12

/-- Python's `str.strip()`: drop leading and trailing whitespace. -/
def pyStrip (s : String) : String :=
  String.mk (((s.toList.dropWhile pyIsSpace).reverse.dropWhile pyIsSpace).reverse)

structure HistoryEntry where
  role : String
  content : String
deriving DecidableEq

/-- Lower-case hex digits of `n` padded to 4 places (`\uXXXX` escapes). -/
def hexDigit (n : Nat) : Char :=
  if n < 10 then Char.ofNat (48 + n) else Char.ofNat (87 + n)

def hex4 (n : Nat) : List Char :=
  [hexDigit (n / 4096 % 16), hexDigit (n / 256 % 16),
   hexDigit (n / 16 % 16), hexDigit (n % 16)]

/-- `json.dumps` escaping of one character (`ensure_ascii=True`): the JSON
short escapes, `\u00xx` for other control characters, `\uxxxx` (with a
surrogate pair above the BMP) for non-ASCII. -/
def jsonEscapeChar (c : Char) : List Char :=
  if c = '"' then ['\\', '"']
  else if c = '\\' then ['\\', '\\']
  else if c = '\n' then ['\\', 'n']
  else if c = '\t' then ['\\', 't']
  else if c = '\r' then ['\\', 'r']
  else if c = Char.ofNat 8 then ['\\', 'b']
  else if c = Char.ofNat 12 then ['\\', 'f']
  else if c.toNat < 32 then '\\' :: 'u' :: hex4 c.toNat
  else if c.toNat < 127 then [c]
  else if c.toNat < 65536 then '\\' :: 'u' :: hex4 c.toNat
  else
    let v := c.toNat - 65536
    ('\\' :: 'u' :: hex4 (55296 + v / 1024)) ++ ('\\' :: 'u' :: hex4 (56320 + v % 1024))

/-- A JSON string literal as `json.dumps` renders it. -/
def jsonStr (s : String) : String :=
  "\"" ++ String.mk (s.toList.map jsonEscapeChar).flatten ++ "\""

/-- One history entry as `json.dumps` renders it (insertion order of the
keys is `role`, `content` everywhere in the agent). -/
def entry_json (e : HistoryEntry) : String :=
  "\x7b\"role\": " ++ jsonStr e.role ++ ", \"content\": " ++ jsonStr e.content ++ "\x7d"

/-- The comma-joined entry list of the serialization (the `", "` separator
of `json.dumps`). -/
def history_json_entries : List HistoryEntry → String
  | [] => ""
  | [e] => entry_json e
  | e :: rest => entry_json e ++ ", " ++ history_json_entries rest

/-- A history as `json.dumps` renders it. -/
def history_json (h : List HistoryEntry) : String :=
  "[" ++ history_json_entries h ++ "]"

/-- Tail-recursive character count (equals `List.length`; the accumulator
keeps deep evaluation on long serialized histories iterative). -/
def charCount : List Char → Nat → Nat
  | [], n => n
  | _ :: cs, n => charCount cs (n + 1)

/-- `estimate_context_size`: `len(json.dumps(history))`. -/
def estimate_context_size (h : List HistoryEntry) : Nat :=
  charCount (history_json h).data 0

/-- `MAX_CONTEXT_SIZE`. -/
def MAX_CONTEXT_SIZE : Nat := 4000

/-- `summarize_old_history`.  The summarizer backend
(`requests.post(...).json().get("response", "")`) is an oracle: `some resp`
is a successful round trip, `none` any exception caught by the bare
`except`.  On failure the source calls `compress_history(history)`, whose
body (size guard against `MAX_CONTEXT_SIZE`, then `summarize_old_history`
again) is inlined here so that the mutual recursion is structural on `fuel`;
`fuel` bounds the re-entry depth and `none` means the mutual recursion never
returned (with a constant backend oracle it loops forever). -/
def summarize_old_history (backend : Option String) : Nat → List HistoryEntry →
    Option (List HistoryEntry)
  | 0, _ => none
  | Nat.succ fuel, history =>
    if history.length ≤ 5 then some history
    else
      -- history[1:-3]
      let to_summarize := (history.drop 1).take (history.length - 4)
      if to_summarize.isEmpty then some history
      else
        match backend with
        | some resp =>
          let summary := pyStrip resp
          some (history.take 1
                ++ [⟨"system", "Previous session summary: " ++ summary⟩]
                ++ history.drop (history.length - 3))
        | none =>
          -- fallback: compress_history(history) with the default max_size
          if estimate_context_size history ≤ MAX_CONTEXT_SIZE then some history
          else summarize_old_history backend fuel history

/-- `compress_history` (the Python default for `max_size` is
`MAX_CONTEXT_SIZE`; call sites pass it explicitly here). -/
def compress_history (backend : Option String) (fuel : Nat)
    (history : List HistoryEntry) (max_size : Nat) : Option (List HistoryEntry) :=
  if estimate_context_size history ≤ max_size then some history
  else summarize_old_history backend fuel history

example : estimate_context_size [] = 2 := by decide
example : estimate_context_size [⟨"user", "hi"⟩] = 35 := by decide

/-! ## Command executor (`src/agents/command_executor.py`)

`execute_command` validates, spawns and logs.  The subprocess result is an
oracle (`SpawnOutcome`); the observable side effects — the spawn itself and
the audit-log lines written by `log_command_execution` — are collected in an
event trace, in program order. -/

/-- `shlex.quote`'s safe characters: ASCII `\w` plus `@ % + = : , .` and
the slash and dash. -/
def shlexQuoteSafe (c : Char) : Bool :=
  ('a' ≤ c ∧ c ≤ 'z') ∨ ('A' ≤ c ∧ c ≤ 'Z') ∨ ('0' ≤ c ∧ c ≤ '9') ∨
  c = '_' ∨ c = '@' ∨ c = '%' ∨ c = '+' ∨ c = '=' ∨ c = ':' ∨ c = ',' ∨
  c = '.' ∨ c = '/' ∨ c = '-'

/-- `shlex.quote`. -/
def shlex_quote (s : String) : String :=
  if s = "" then "''"
  else if s.toList.all shlexQuoteSafe then s
  else "'" ++ s.replace "'" "'\"'\"'" ++ "'"

/-- Outcome of `subprocess.run`, as an oracle: a completed process with its
exit code and captured streams, or a raised exception. -/
inductive SpawnOutcome where
  | completed (returncode : Int) (stdout : String) (stderr : String)
  | fileNotFound
  | otherError (msg : String)

/-- Observable side effects of `execute_command`, in program order. -/
inductive ExecEvent where
  | spawnShell (command_line : String)              -- subprocess.run(..., shell=True)
  | spawnArgv (command : String) (args : List String) -- subprocess.run([command] + args)
  | auditInfo (line : String)                       -- logger.info in log_command_execution
  | auditWarn (line : String)                       -- logger.warning on non-zero exit
deriving DecidableEq

def ExecEvent.isAudit : ExecEvent → Bool
  | .auditInfo _ => true
  | .auditWarn _ => true
  | _ => false

def ExecEvent.isSpawn : ExecEvent → Bool
  | .spawnShell _ => true
  | .spawnArgv _ _ => true
  | _ => false

/-- `_format_command_output`. -/
def format_command_output (stdout stderr : String) : String :=
  let o1 := if stdout ≠ "" then "--- Output ---\n" ++ pyStrip stdout ++ "\n" else ""
  let o2 := if stderr ≠ "" then "--- Errors ---\n" ++ pyStrip stderr ++ "\n" else ""
  let output := o1 ++ o2
  if output ≠ "" then output else "Command executed successfully with no output.\n"

/-- `log_command_execution`: one info line, plus a warning line on non-zero
exit. -/
def log_command_execution (command : String) (args : List String)
    (return_code : Int) (result : String) : List ExecEvent :=
  let cmd_str := command ++ " " ++ String.intercalate " " args
  [ExecEvent.auditInfo ("EXECUTED: " ++ cmd_str ++ " | EXIT_CODE: " ++ toString return_code)]
  ++ (if return_code ≠ 0 then
        [ExecEvent.auditWarn ("COMMAND_FAILED: " ++ cmd_str ++ " | ERROR: " ++ result)]
      else [])

/-- `_run_command_subprocess`: choose shell or argv dispatch by scanning the
joined command text for shell operators. -/
def run_command_subprocess_event (command : String) (args : List String) : ExecEvent :=
  let command_line := command ++ " " ++ String.intercalate " " (args.map shlex_quote)
  let joined := String.intercalate " " (command :: args)
  let needs_shell := ["|", ">", "<", "&&", "||"].any (fun op => strContains joined op)
  if needs_shell then ExecEvent.spawnShell command_line
  else ExecEvent.spawnArgv command args

/-- `execute_command`: returns `(return_code, formatted_output)` and the
trace of spawn/audit events. -/
def execute_command (spawn : SpawnOutcome) (command : String) (args : List String) :
    (Int × String) × List ExecEvent :=
  let safety := validate_command_safety command args
  if ¬ safety.1 then
    ((1, "🚫 Command blocked for safety: " ++ safety.2 ++ "\n"), [])
  else
    let spawnEv := run_command_subprocess_event command args
    match spawn with
    | .completed rc stdout stderr =>
      let final_output := format_command_output stdout stderr
      ((rc, final_output), spawnEv :: log_command_execution command args rc final_output)
    | .fileNotFound =>
      ((1, "Error: Command not found: " ++ command ++ "\n"), [spawnEv])
    | .otherError msg =>
      ((1, "An unexpected error occurred: " ++ msg ++ "\n"), [spawnEv])

/-! ## Plan-step execution (`execute_plan_steps` in `src/agents/main_agent.py`)

Steps of a normalized plan.  The per-call results of `execute_command` and
of the interactive `confirm_sudo_execution` prompt are oracles indexed by
invocation count.  The function returns the `all_steps_succeeded` flag and
the trace of executed steps with their exit codes (each executed step also
appends a system history entry; the trace stands for those appends). -/

structure PStep where
  command : String
  args : List String
deriving DecidableEq

structure StepEnv where
  exec : Nat → Int × String     -- n-th execute_command result
  confirmSudo : Nat → Bool      -- n-th confirm_sudo_execution answer

/-- Loop body of `execute_plan_steps`; `ec`/`sc` count `execute_command`
calls and sudo prompts so far. -/
def execute_plan_steps_go (env : StepEnv) :
    List PStep → Nat → Nat → Bool × List (PStep × Int)
  | [], _, _ => (true, [])
  | step :: rest, ec, sc =>
    if step.command = "" then
      -- `if not command: continue` (skipped invalid step)
      execute_plan_steps_go env rest ec sc
    else if step.command = "sudo" ∧ ¬ env.confirmSudo sc then
      -- user declined sudo: abort the remaining steps of this plan
      (false, [])
    else
      let sc' := if step.command = "sudo" then sc + 1 else sc
      let rc := (env.exec ec).1
      if rc ≠ 0 then
        -- command failed: abort the remaining steps of this plan
        (false, [(step, rc)])
      else
        let rest_result := execute_plan_steps_go env rest (ec + 1) sc'
        (rest_result.1, (step, rc) :: rest_result.2)

/-- `execute_plan_steps`. -/
def execute_plan_steps (env : StepEnv) (plan : List PStep) : Bool × List (PStep × Int) :=
  execute_plan_steps_go env plan 0 0

/-- The §3 success rule as used by `_is_command_successful` for completion
checking: exit 0 succeeds, and a `which` step exiting 1 also counts as
success.  A step *fails* when it is not successful under this rule. -/
def step_fails_success_rule (command : String) (rc : Int) : Bool :=
  rc ≠ 0 ∧ ¬ (command = "which" ∧ rc = 1)

/-! ## The control loop (`main` in `src/agents/main_agent.py`)

One pass of the `while True:` loop, instrumented for the claims about
iteration control and history compression.  External nondeterminism — the
model backend, the outcome of the execution phase, terminal attachment and
the user's continuation choice — is an environment of oracles indexed by the
pass number.  Every call to `summarize_old_history` made during a pass is
recorded as a compression event paired with the value the session iteration
counter holds once the enclosing phase returns. -/

structure LoopEnv where
  planSum : Nat → Option String   -- summarizer backend for the planning-phase compression
  ctrlSum : Nat → Option String   -- summarizer backend for iteration-control compressions
  aiResponse : Nat → String       -- full_ai_response appended by the planning phase
  execSuccess : Nat → Bool        -- result of _handle_execution_phase / handle_plan_execution
  execAppends : Nat → List HistoryEntry -- history entries appended during the execution phase
  taskComplete : Nat → Bool       -- _check_task_completion verdict
  isatty : Bool                   -- sys.stdin.isatty()
  userChoice : Nat → String       -- get_user_continuation_choice() result

/-- Where a compression happened. -/
inductive CompressKind where
  | planningSize  -- _handle_planning_phase, context size over MAX_CONTEXT_SIZE
  | userRestart   -- _handle_user_choice on 'r'
  | autoFive      -- handle_iteration_control at iteration >= 5
deriving DecidableEq

/-- How a pass left the loop. -/
inductive PassExit where
  | running        -- fell through / `continue`: the loop does another pass
  | completed      -- task complete, `return`
  | userQuit       -- should_continue false, `return`
  | maxIterations  -- `iteration > 10` check fired, `break` with the message
  | diverged       -- a summarize/compress mutual recursion never returned
deriving DecidableEq

/-- Fuel given to `summarize_old_history` inside the loop model (2 calls
suffice whenever the Python mutual recursion terminates at all, since each
call site uses a fixed backend oracle). -/
def compressFuel : Nat := 5

structure PassResult where
  exit : PassExit
  iteration : Nat
  history : List HistoryEntry
  events : List (CompressKind × Nat)

/-- `handle_iteration_control` (with `_handle_user_choice` inlined): returns
`should_continue`, the new history, the new iteration counter, and any
compression events.  `none` models a diverging summarization fallback. -/
def handle_iteration_control (env : LoopEnv) (k : Nat) (iteration : Nat)
    (history : List HistoryEntry) :
    Option (Bool × List HistoryEntry × Nat × List (CompressKind × Nat)) :=
  if 3 ≤ iteration ∧ env.isatty then
    let c := env.userChoice k
    if c = "q" then some (false, history, 0, [])
    else if c = "r" then
      match summarize_old_history (env.ctrlSum k) compressFuel history with
      | some h => some (true, h, 0, [(CompressKind.userRestart, 0)])
      | none => none
    else if c = "a" then
      -- toggles REQUIRE_PLAN_APPROVAL; counter and history unchanged
      some (true, history, iteration, [])
    else some (true, history, iteration, [])
  else if 5 ≤ iteration then
    match summarize_old_history (env.ctrlSum k) compressFuel history with
    | some h => some (true, h, 0, [(CompressKind.autoFive, 0)])
    | none => none
  else some (true, history, iteration, [])

/-- One pass of `main`'s `while True:` loop, starting after
`iteration += 1` is about to run. -/
def loopPass (env : LoopEnv) (k : Nat) (iteration0 : Nat)
    (history0 : List HistoryEntry) : PassResult :=
  let iteration := iteration0 + 1
  -- _handle_planning_phase: compress first when the context got large
  let planning :=
    if estimate_context_size history0 > MAX_CONTEXT_SIZE then
      match summarize_old_history (env.planSum k) compressFuel history0 with
      | some h => some (h, [(CompressKind.planningSize, iteration)])
      | none => none
    else some (history0, [])
  match planning with
  | none => ⟨.diverged, iteration, history0, []⟩
  | some (h1, ev1) =>
    let h2 := h1 ++ [⟨"assistant", env.aiResponse k⟩]
    -- _handle_execution_phase (its outcome and history appends are oracles)
    let h3 := h2 ++ env.execAppends k
    if ¬ env.execSuccess k then
      -- `if not execution_success: continue`
      ⟨.running, iteration, h3, ev1⟩
    else if env.taskComplete k then
      ⟨.completed, iteration, h3, ev1⟩
    else
      match handle_iteration_control env k iteration h3 with
      | none => ⟨.diverged, iteration, h3, ev1⟩
      | some (should_continue, h4, it2, ev2) =>
        if ¬ should_continue then ⟨.userQuit, it2, h4, ev1 ++ ev2⟩
        else if it2 > 10 then ⟨.maxIterations, it2, h4, ev1 ++ ev2⟩
        else ⟨.running, it2, h4, ev1 ++ ev2⟩

/-- Run up to `n` passes of the loop; returns how the loop ended (`running`
when it is still going after `n` passes), the final counter, and all
compression events. -/
def runLoop (env : LoopEnv) : Nat → Nat → Nat → List HistoryEntry →
    PassExit × Nat × List (CompressKind × Nat)
  | 0, _, iteration, _ => (.running, iteration, [])
  | Nat.succ n, k, iteration, history =>
    let r := loopPass env k iteration history
    match r.exit with
    | .running =>
      let rest := runLoop env n (k + 1) r.iteration r.history
      (rest.1, rest.2.1, r.events ++ rest.2.2)
    | e => (e, r.iteration, r.events)

/-! ## Claims about the safety classifier -/
/-- For `sudo` the basic allow/deny check passes and the classifier defers
to `_validate_sudo_command`. -/
theorem validate_sudo_reduction (args : List String) :
    validate_command_safety "sudo" args = validate_sudo_command args := by
  have h1 : "sudo" ∉ DANGEROUS_COMMANDS := by decide
  have h2 : "sudo" ∈ ALLOWED_COMMANDS := by decide
  simp [validate_command_safety, check_basic_command_safety, h1, h2]

/-- Any argument of a sudo invocation that contains a dangerous flag as a
substring makes `_validate_sudo_command` deny. -/
theorem sudo_flag_denied (args : List String) (arg : String) (hm : arg ∈ args)
    (hf : dangerous_flags.any (fun flag => strContains arg flag) = true) :
    (validate_sudo_command args).1 = false := by
  match args, hm with
  | a :: rest, hm =>
    unfold validate_sudo_command
    split
    · simp
    · cases hfind : (a :: rest).find?
        (fun arg => dangerous_flags.any (fun flag => strContains arg flag)) with
      | some x => simp [hfind]; split <;> simp
      | none =>
        exfalso
        rw [List.find?_eq_none] at hfind
        exact absurd hf (by simpa using hfind arg hm)

/-- C1: every command of the fixed deny-set is classified Denied for every
argument list, and the reason is the deny-set reason — the deny-set is
consulted before the allow-set, so even a command that (hypothetically) also
sat in the allow-set would be Denied. -/
theorem C1_deny_set_denied (command : String) (args : List String)
    (h : command ∈ DANGEROUS_COMMANDS) :
    validate_command_safety command args =
      (false, "Command '" ++ command ++ "' is in the dangerous commands list") := by
  simp [validate_command_safety, check_basic_command_safety, h]

/-- Witness for C1 at the concrete deny-set command `rm`. -/
theorem C1_deny_set_denied_witness :
    validate_command_safety "rm" ["-r", "/tmp/x"] =
      (false, "Command 'rm' is in the dangerous commands list") :=
  C1_deny_set_denied "rm" ["-r", "/tmp/x"] (by decide)

/-- C2: classification of the privilege-escalation wrapper `sudo`: an empty
argument list is Denied; a first argument outside the reduced safe-target
set is Denied; any argument containing `-rf`, `--force` or
`--no-preserve-root` as a substring is Denied; `sudo apt-get install -y vim`
is Allowed; and `sudo apt-get ...` is Denied whenever a remaining argument
contains `--force`. -/
theorem C2_sudo_classification :
    (validate_command_safety "sudo" []).1 = false
  ∧ (∀ (a : String) (rest : List String), a ∉ SAFE_SUDO_COMMANDS →
      (validate_command_safety "sudo" (a :: rest)).1 = false)
  ∧ (∀ (args : List String) (arg : String), arg ∈ args →
      (strContains arg "-rf" = true ∨ strContains arg "--force" = true ∨
        strContains arg "--no-preserve-root" = true) →
      (validate_command_safety "sudo" args).1 = false)
  ∧ (validate_command_safety "sudo" ["apt-get", "install", "-y", "vim"]).1 = true
  ∧ (∀ (rest : List String) (arg : String), arg ∈ rest →
      strContains arg "--force" = true →
      (validate_command_safety "sudo" ("apt-get" :: rest)).1 = false) := by
  refine ⟨by decide, ?_, ?_, by decide, ?_⟩
  · intro a rest ha
    rw [validate_sudo_reduction]
    simp [validate_sudo_command, ha]
  · intro args arg hm hflag
    have hf : dangerous_flags.any (fun flag => strContains arg flag) = true := by
      rcases hflag with h | h | h <;> simp [dangerous_flags, h]
    rw [validate_sudo_reduction]
    exact sudo_flag_denied args arg hm hf
  · intro rest arg hm hforce
    have hf : dangerous_flags.any (fun flag => strContains arg flag) = true := by
      simp [dangerous_flags, hforce]
    rw [validate_sudo_reduction]
    exact sudo_flag_denied ("apt-get" :: rest) arg (List.mem_cons_of_mem _ hm) hf

/-- Witness for C2 at concrete inputs: `sudo ls` (unlisted target),
`sudo apt-get -rf` (dangerous substring) and
`sudo apt-get install --force` (forced flag in the remaining args). -/
theorem C2_sudo_classification_witness :
    (validate_command_safety "sudo" ["ls"]).1 = false
  ∧ (validate_command_safety "sudo" ["apt-get", "-rf"]).1 = false
  ∧ (validate_command_safety "sudo" ["apt-get", "install", "--force"]).1 = false :=
  ⟨C2_sudo_classification.2.1 "ls" [] (by decide),
   C2_sudo_classification.2.2.1 ["apt-get", "-rf"] "-rf" (by decide)
     (Or.inl (by decide)),
   C2_sudo_classification.2.2.2.2 ["install", "--force"] "--force" (by decide)
     (by decide)⟩

/-! ## Claims about plan-step execution -/

/-- Any executed step recorded with a non-zero exit code is the last entry
of the execution trace, and the plan's success flag is `false`. -/
theorem step_trace_fail_last (env : StepEnv) :
    ∀ (plan : List PStep) (ec sc : Nat) (s : PStep) (rc : Int),
      (s, rc) ∈ (execute_plan_steps_go env plan ec sc).2 → rc ≠ 0 →
      (execute_plan_steps_go env plan ec sc).2.getLast? = some (s, rc) ∧
      (execute_plan_steps_go env plan ec sc).1 = false := by
  intro plan
  induction plan with
  | nil => intro ec sc s rc hm _; simp [execute_plan_steps_go] at hm
  | cons step rest ih =>
    intro ec sc s rc hm hrc
    simp only [execute_plan_steps_go] at hm ⊢
    set sc' := (if step.command = "sudo" then sc + 1 else sc) with hsc'
    split_ifs at hm ⊢ with h1 h2 h3
    · exact ih ec sc s rc hm hrc
    · simp at hm
    · have heq := List.mem_singleton.mp hm
      refine ⟨?_, rfl⟩
      rw [heq]
      rfl
    · rcases List.mem_cons.mp hm with heq | hmem
      · exfalso
        have h4 : rc = (env.exec ec).1 := congrArg Prod.snd heq
        omega
      · have hres := ih (ec + 1) sc' s rc hmem hrc
        refine ⟨?_, hres.2⟩
        show ((step, (env.exec ec).1) ::
          (execute_plan_steps_go env rest (ec + 1) sc').2).getLast? = some (s, rc)
        cases htr : (execute_plan_steps_go env rest (ec + 1) sc').2 with
        | nil => rw [htr] at hmem; simp at hmem
        | cons b bs =>
          rw [htr] at hres
          rw [List.getLast?_cons_cons]
          exact hres.1

/-- C3: during execution of one normalized plan, once an executed step fails
under the §3 success rule (non-zero exit, not excused as a `which` exiting
1), it is the last executed step — no later step of the plan runs — and the
plan is marked failed. -/
theorem C3_fail_fast (env : StepEnv) (plan : List PStep) (s : PStep) (rc : Int)
    (hm : (s, rc) ∈ (execute_plan_steps env plan).2)
    (hf : step_fails_success_rule s.command rc = true) :
    (execute_plan_steps env plan).2.getLast? = some (s, rc) ∧
    (execute_plan_steps env plan).1 = false := by
  have hrc : rc ≠ 0 := by
    intro h
    simp [step_fails_success_rule, h] at hf
  exact step_trace_fail_last env plan 0 0 s rc hm hrc

/-- Environment for the C3 witness: every spawned command exits 2, sudo is
always confirmed. -/
def stepEnvW : StepEnv := ⟨fun _ => (2, "error output"), fun _ => true⟩

/-- Witness for C3: a two-step plan whose first step exits 2 ends its trace
at that step with the plan marked failed. -/
theorem C3_fail_fast_witness :
    (execute_plan_steps stepEnvW [⟨"ls", []⟩, ⟨"cat", ["x"]⟩]).2.getLast? =
        some (⟨"ls", []⟩, 2) ∧
    (execute_plan_steps stepEnvW [⟨"ls", []⟩, ⟨"cat", ["x"]⟩]).1 = false :=
  C3_fail_fast stepEnvW [⟨"ls", []⟩, ⟨"cat", ["x"]⟩] ⟨"ls", []⟩ 2
    (by decide) (by decide)

/-! ## Claims about the executor -/

/-- The spawn event produced by `_run_command_subprocess` is a spawn, in
either dispatch mode. -/
theorem run_event_isSpawn (command : String) (args : List String) :
    (run_command_subprocess_event command args).isSpawn = true := by
  simp only [run_command_subprocess_event]
  split <;> rfl

/-- C9: a denied command is answered with exit code 1 and the rejection
message before any side effect — its event trace is empty, so no audit-log
line is written for it; and any audit line in any trace comes with a spawn
event in that trace, i.e. audit lines are produced only for commands that
actually reached the process-spawn step. -/
theorem C9_no_audit_for_blocked (spawn : SpawnOutcome) (command : String)
    (args : List String) :
    ((validate_command_safety command args).1 = false →
      execute_command spawn command args =
        ((1, "🚫 Command blocked for safety: " ++
            (validate_command_safety command args).2 ++ "\n"), []))
  ∧ (∀ ev ∈ (execute_command spawn command args).2, ev.isAudit = true →
      ∃ sp ∈ (execute_command spawn command args).2, sp.isSpawn = true) := by
  constructor
  · intro h
    simp [execute_command, h]
  · intro ev hev _
    by_cases h : (validate_command_safety command args).1 = true
    · refine ⟨run_command_subprocess_event command args, ?_,
        run_event_isSpawn command args⟩
      simp only [execute_command, h, not_true, if_neg, not_false_iff]
      cases spawn <;> simp
    · exfalso
      simp only [execute_command] at hev
      rw [if_pos h] at hev
      simp at hev

/-- Witness for C9: the deny-set command `rm -rf /` produces the blocked
result and an empty event trace (no spawn, no audit line). -/
theorem C9_no_audit_for_blocked_witness :
    execute_command (SpawnOutcome.completed 0 "" "") "rm" ["-rf", "/"] =
      ((1, "🚫 Command blocked for safety: Command 'rm' is in the dangerous commands list\n"),
       []) :=
  (C9_no_audit_for_blocked (SpawnOutcome.completed 0 "" "") "rm" ["-rf", "/"]).1
    (by decide)

/-! ## Claims about the plan normalizer -/

/-- C10: `normalize_plan` is the identity (and in particular raises nothing)
on any input that is not a dict, or whose `plan` key is missing or not bound
to a list — such as `{"error": ...}` payloads. -/
theorem C10_normalize_total (plan_data : JVal)
    (h : ∀ (fields : List (String × JVal)) (steps : List JVal),
        plan_data = JVal.jobj fields →
        lookupField fields "plan" ≠ some (JVal.jarr steps)) :
    normalize_plan plan_data = Except.ok plan_data := by
  cases plan_data with
  | jobj fields =>
    cases hl : lookupField fields "plan" with
    | none => simp [normalize_plan, hl]
    | some v =>
      cases v with
      | jarr steps => exact absurd hl (h fields steps rfl)
      | jnull => simp [normalize_plan, hl]
      | jbool b => simp [normalize_plan, hl]
      | jnum n => simp [normalize_plan, hl]
      | jstr s => simp [normalize_plan, hl]
      | jobj f => simp [normalize_plan, hl]
  | jnull => rfl
  | jbool b => rfl
  | jnum n => rfl
  | jstr s => rfl
  | jarr xs => rfl

/-- Witness for C10 at the `{"error": ...}` payload. -/
theorem C10_normalize_total_witness :
    normalize_plan (JVal.jobj [("error", JVal.jstr "extraction failed")]) =
      Except.ok (JVal.jobj [("error", JVal.jstr "extraction failed")]) :=
  C10_normalize_total (JVal.jobj [("error", JVal.jstr "extraction failed")])
    (fun fields steps heq => by
      cases heq
      intro hl
      simp [lookupField] at hl)

/-- C6, evaluated at the failing input `{"command": "ls", "args": [1]}`:
`_normalize_dict_step` only checks `isinstance(raw_args, list)` and never
validates the entries, so the non-string entry `1` flows through
normalization untouched (the step is returned with `args == [1]`, neither
replaced by `[]` nor made a list of strings, contradicting the claim and the
docstring "Ensure args is a list of strings"). -/
theorem C6_nonstring_args_pass_through :
    normalize_plan (JVal.jobj [("plan", JVal.jarr
        [JVal.jobj [("command", JVal.jstr "ls"), ("args", JVal.jarr [JVal.jnum 1])]])]) =
      Except.ok (JVal.jobj [("plan", JVal.jarr
        [JVal.jobj [("command", JVal.jstr "ls"), ("args", JVal.jarr [JVal.jnum 1])]])]) := by
  rfl

/-! ## C7: idempotence of `normalize_plan`

`normalize_plan` is *not* idempotent: shell quoting lets a command token
keep an embedded space through the first pass (`"'a b' c"` normalizes to
command `"a b"`), and the second pass re-splits it.  The amended statement
restricts to outputs whose string commands contain no space. -/

/-- Projection used to exhibit the counterexample: the command string of the
first step of a normalize result. -/
def firstCommandString : Except PyErr JVal → Option String
  | .ok (.jobj fields) =>
    match lookupField fields "plan" with
    | some (.jarr (step :: _)) =>
      match step with
      | .jobj sf =>
        match lookupField sf "command" with
        | some (.jstr s) => some s
        | _ => none
      | _ => none
    | _ => none
  | _ => none

/-- The C7 counterexample plan: one string step with a quoted first token. -/
def planC7 : JVal := JVal.jobj [("plan", JVal.jarr [JVal.jstr "'a b' c"])]

/-- `planC7` after one normalization pass. -/
def planC7once : JVal := JVal.jobj [("plan", JVal.jarr
  [JVal.jobj [("command", JVal.jstr "a b"), ("args", JVal.jarr [JVal.jstr "c"])]])]

/-- C7 counterexample: normalization is not idempotent — `planC7`
normalizes to a step with command `"a b"`, and normalizing that output
again splits the command into `"a"` with an extra argument. -/
theorem C7_counterexample :
    ¬ (∀ (p w : JVal), normalize_plan p = Except.ok w →
        normalize_plan w = Except.ok w) := by
  intro hcl
  have h1 : normalize_plan planC7 = Except.ok planC7once := by rfl
  have h2 := hcl planC7 planC7once h1
  have h3 := congrArg firstCommandString h2
  have h4 : firstCommandString (normalize_plan planC7once) = some "a" := by rfl
  rw [h4] at h3
  have h5 : firstCommandString (Except.ok planC7once) = some "a b" := by rfl
  rw [h5] at h3
  exact absurd h3 (by decide)

/-- The condition under which a surviving command is not re-split on a
second pass: its `" " in raw_cmd` test returns an `ok` boolean which, when
true, can only come from a string (which the amended claim requires to be
space-free). -/
def cmdNoResplitOk (c : JVal) : Prop :=
  ∃ b, pyContainsSpace c = Except.ok b ∧ (b = true → ∃ s, c = JVal.jstr s)

/-- Decidable no-space condition on the string commands of a normalized
plan, used as the hypothesis of the amended C7. -/
def noResplitCommands : JVal → Bool
  | .jobj fields =>
    match lookupField fields "plan" with
    | some (.jarr steps) => steps.all (fun step =>
        match step with
        | .jobj sf =>
          match lookupField sf "command" with
          | some (.jstr s) => ¬ s.toList.contains ' '
          | _ => true
        | _ => true)
    | _ => true
  | _ => true

/-- Inversion of `>>=` on `Except`. -/
theorem except_bind_ok {ε α β : Type} (x : Except ε α) (f : α → Except ε β) (y : β)
    (h : (x >>= f) = Except.ok y) : ∃ a, x = Except.ok a ∧ f a = Except.ok y := by
  cases x with
  | error e => exact absurd h (by simp [Bind.bind, Except.bind])
  | ok a => exact ⟨a, rfl, by simpa [Bind.bind, Except.bind] using h⟩

/-- `_normalize_string_step` always yields a string command. -/
theorem normalize_string_step_cmd (s : String) (c : JVal) (as : List JVal)
    (h : normalize_string_step s = Except.ok (c, as)) : ∃ t, c = JVal.jstr t := by
  unfold normalize_string_step at h
  cases hsp : shlex_split s with
  | none => rw [hsp] at h; exact absurd h (by simp)
  | some parts =>
    rw [hsp] at h
    cases parts with
    | nil =>
      refine ⟨"", ?_⟩
      have := (Except.ok.injEq _ _).mp h
      exact (congrArg Prod.fst this).symm
    | cons t rest =>
      refine ⟨t, ?_⟩
      have := (Except.ok.injEq _ _).mp h
      exact (congrArg Prod.fst this).symm


/-- A command surviving the splitting block is either falsy (and will be
dropped by the checks) or satisfies `cmdNoResplitOk`: a truthy non-string
never survives a positive space test (it raises in `shlex.split`). -/
theorem normalize_dict_cmd_split_cmd (rc : JVal) (y : List JVal) (c : JVal)
    (as : List JVal) (h : normalize_dict_cmd_split rc y = Except.ok (c, as)) :
    pyTruthy c = false ∨ cmdNoResplitOk c := by
  unfold normalize_dict_cmd_split at h
  by_cases ht : pyTruthy rc = true
  · rw [if_pos ht] at h
    cases hcs : pyContainsSpace rc with
    | error e => rw [hcs] at h; exact absurd h (by simp)
    | ok b =>
      rw [hcs] at h
      dsimp only at h
      cases b with
      | false =>
        rw [if_neg (by simp)] at h
        have hcc : c = rc := by
          have := (Except.ok.injEq _ _).mp h
          exact (congrArg Prod.fst this).symm
        right
        exact ⟨false, hcc ▸ hcs, by simp⟩
      | true =>
        rw [if_pos rfl] at h
        cases rc with
        | jstr s =>
          dsimp only at h
          cases hsp : shlex_split s with
          | none => rw [hsp] at h; exact absurd h (by simp)
          | some parts =>
            rw [hsp] at h
            cases parts with
            | nil => exact absurd h (by simp)
            | cons t rest =>
              have hct : c = JVal.jstr t := by
                have := (Except.ok.injEq _ _).mp h
                exact (congrArg Prod.fst this).symm
              right
              exact ⟨(t.toList.contains ' '), by rw [hct]; rfl,
                fun _ => ⟨t, hct⟩⟩
        | jnull => exact absurd h (by simp)
        | jbool b => exact absurd h (by simp)
        | jnum n => exact absurd h (by simp)
        | jarr xs => exact absurd h (by simp)
        | jobj f => exact absurd h (by simp)
  · rw [if_neg ht] at h
    have hcc : c = rc := by
      have := (Except.ok.injEq _ _).mp h
      exact (congrArg Prod.fst this).symm
    left
    rw [hcc]
    exact Bool.not_eq_true _ |>.mp ht

/-- Commands surviving `_normalize_dict_step` are falsy or re-split-safe. -/
theorem normalize_dict_step_cmd (fields : List (String × JVal)) (c : JVal)
    (as : List JVal) (h : normalize_dict_step fields = Except.ok (c, as)) :
    pyTruthy c = false ∨ cmdNoResplitOk c := by
  unfold normalize_dict_step at h
  cases hargs : (lookupField fields "args").getD (JVal.jarr []) with
  | jstr s =>
    rw [hargs] at h
    dsimp only at h
    cases hsp : shlex_split s with
    | none => rw [hsp] at h; exact absurd h (by simp)
    | some toks =>
      rw [hsp] at h
      exact normalize_dict_cmd_split_cmd _ _ c as h
  | jnull => rw [hargs] at h; exact normalize_dict_cmd_split_cmd _ _ c as h
  | jbool b => rw [hargs] at h; exact normalize_dict_cmd_split_cmd _ _ c as h
  | jnum n => rw [hargs] at h; exact normalize_dict_cmd_split_cmd _ _ c as h
  | jarr xs => rw [hargs] at h; exact normalize_dict_cmd_split_cmd _ _ c as h
  | jobj f => rw [hargs] at h; exact normalize_dict_cmd_split_cmd _ _ c as h

/-- Every step surviving `_process_single_step` has a truthy, shell-safe
command that is re-split-safe. -/
theorem process_single_step_good (step : JVal) (c : JVal) (as : List JVal)
    (h : process_single_step step = Except.ok (some (c, as))) :
    pyTruthy c = true ∧ is_step_safe c as = true ∧ cmdNoResplitOk c := by
  have checks : ∀ (c0 : JVal) (as0 : List JVal),
      step_checks c0 as0 = some (c, as) →
      c0 = c ∧ as0 = as ∧ pyTruthy c = true ∧ is_step_safe c as = true := by
    intro c0 as0 hch
    unfold step_checks at hch
    split_ifs at hch with h1 h2
    · cases hch
      exact ⟨rfl, rfl, h2, h1⟩
  cases step with
  | jstr s =>
    unfold process_single_step at h
    dsimp only at h
    cases hns : normalize_string_step s with
    | error e => rw [hns] at h; exact absurd h (by simp)
    | ok ca =>
      rw [hns] at h
      dsimp only at h
      obtain ⟨t, hct⟩ := normalize_string_step_cmd s ca.1 ca.2 (by rw [hns])
      obtain ⟨hc, _, ht, hs⟩ := checks ca.1 ca.2 ((Except.ok.injEq _ _).mp h)
      refine ⟨ht, hs, ?_⟩
      rw [← hc, hct]
      exact ⟨(t.toList.contains ' '), rfl, fun _ => ⟨t, rfl⟩⟩
  | jobj fields =>
    unfold process_single_step at h
    dsimp only at h
    cases hnd : normalize_dict_step fields with
    | error e => rw [hnd] at h; exact absurd h (by simp)
    | ok ca =>
      rw [hnd] at h
      dsimp only at h
      obtain ⟨hc, _, ht, hs⟩ := checks ca.1 ca.2 ((Except.ok.injEq _ _).mp h)
      refine ⟨ht, hs, ?_⟩
      rcases normalize_dict_step_cmd fields ca.1 ca.2 (by rw [hnd]) with hf | hok
      · rw [hc] at hf; rw [hf] at ht; cases ht
      · rw [← hc]; exact hok
  | jnull => exact absurd h (by simp [process_single_step])
  | jbool b => exact absurd h (by simp [process_single_step])
  | jnum n => exact absurd h (by simp [process_single_step])
  | jarr xs => exact absurd h (by simp [process_single_step])

/-- Every step of a successfully normalized plan has the canonical
`{"command": c, "args": [...]}` shape with a truthy, shell-safe,
re-split-safe command. -/
theorem process_steps_members (steps : List JVal) :
    ∀ (ns : List JVal), process_steps steps = Except.ok ns →
    ∀ st ∈ ns, ∃ c as, st = JVal.jobj [("command", c), ("args", JVal.jarr as)] ∧
      pyTruthy c = true ∧ is_step_safe c as = true ∧ cmdNoResplitOk c := by
  induction steps with
  | nil =>
    intro ns h st hst
    have : ns = [] := ((Except.ok.injEq _ _).mp h).symm
    rw [this] at hst
    cases hst
  | cons step rest ih =>
    intro ns h st hst
    unfold process_steps at h
    cases hr : process_single_step step with
    | error e => rw [hr] at h; exact absurd h (by simp)
    | ok r =>
      rw [hr] at h
      dsimp only at h
      cases htail : process_steps rest with
      | error e => rw [htail] at h; exact absurd h (by simp)
      | ok tail =>
        rw [htail] at h
        dsimp only at h
        cases r with
        | none =>
          have : ns = tail := ((Except.ok.injEq _ _).mp h).symm
          rw [this] at hst
          exact ih tail htail st hst
        | some ca =>
          obtain ⟨cmd, args⟩ := ca
          have hns : ns = JVal.jobj [("command", cmd), ("args", JVal.jarr args)] :: tail :=
            ((Except.ok.injEq _ _).mp h).symm
          rw [hns] at hst
          rcases List.mem_cons.mp hst with heq | hmem
          · obtain ⟨ht, hs, hok⟩ := process_single_step_good step cmd args hr
            exact ⟨cmd, args, heq, ht, hs, hok⟩
          · exact ih tail htail st hmem

/-- Second-pass evaluation of `_normalize_dict_step` on a canonical step
whose command's space test is `ok false`: the step is reproduced intact. -/
theorem process_single_step_second (c : JVal) (as : List JVal)
    (ht : pyTruthy c = true) (hs : is_step_safe c as = true)
    (hcs : pyContainsSpace c = Except.ok false) :
    process_single_step (JVal.jobj [("command", c), ("args", JVal.jarr as)]) =
      Except.ok (some (c, as)) := by
  have hlc : lookupField [("command", c), ("args", JVal.jarr as)] "command" = some c := by
    simp [lookupField]
  have hla : lookupField [("command", c), ("args", JVal.jarr as)] "args" =
      some (JVal.jarr as) := by
    simp [lookupField]
  have hdict : normalize_dict_step [("command", c), ("args", JVal.jarr as)] =
      Except.ok (c, as) := by
    simp only [normalize_dict_step, hlc, hla, Option.getD_some]
    unfold normalize_dict_cmd_split
    rw [if_pos ht, hcs]
    dsimp only
    rw [if_neg (by simp)]
  unfold process_single_step
  dsimp only
  rw [hdict]
  dsimp only
  unfold step_checks
  rw [if_neg (by simp [hs]), if_pos ht]

/-- Second-pass evaluation of the normalization loop: canonical steps whose
commands pass the no-resplit test are reproduced verbatim. -/
theorem process_steps_second (steps : List JVal)
    (h : ∀ st ∈ steps, ∃ c as,
        st = JVal.jobj [("command", c), ("args", JVal.jarr as)] ∧
        pyTruthy c = true ∧ is_step_safe c as = true ∧
        pyContainsSpace c = Except.ok false) :
    process_steps steps = Except.ok steps := by
  induction steps with
  | nil => rfl
  | cons st rest ih =>
    obtain ⟨c, as, hst, ht, hs, hcs⟩ := h st (List.mem_cons_self _ _)
    have h2 := process_single_step_second c as ht hs hcs
    have h3 := ih (fun st hm => h st (List.mem_cons_of_mem _ hm))
    unfold process_steps
    rw [hst, h2, h3]

/-- After `plan_data["plan"] = normalized`, looking the key up again yields
the new value (provided the key was present, as `normalize_plan`'s guard
ensures). -/
theorem lookupField_setField (fields : List (String × JVal)) (k : String)
    (v : JVal) (h : (lookupField fields k).isSome = true) :
    lookupField (setField fields k v) k = some v := by
  induction fields with
  | nil => simp [lookupField] at h
  | cons p rest ih =>
    by_cases hp : p.1 = k
    · simp [lookupField, setField, hp]
    · have h' : (lookupField rest k).isSome = true := by
        simpa [lookupField, List.find?, hp] using h
      simpa [lookupField, setField, hp] using ih h'

/-- Assigning the same value to the same key twice is the same as once. -/
theorem setField_setField (fields : List (String × JVal)) (k : String) (v : JVal) :
    setField (setField fields k v) k v = setField fields k v := by
  induction fields with
  | nil => rfl
  | cons p rest ih =>
    have hrest : ∀ (a : String) (b : JVal), (a, b) ∈ rest →
        (if a = k then (k, v) else (a, b)).1 = k →
        (k, v) = if a = k then (k, v) else (a, b) := by
      intro a b _ h2
      by_cases ha : a = k
      · rw [if_pos ha]
      · rw [if_neg ha] at h2 ⊢
        exact absurd h2 ha
    by_cases hp : p.1 = k
    · simp [setField, hp, ih]
      exact hrest
    · simp [setField, hp, ih]
      exact hrest

/-- C7 (amended): `normalize_plan` is idempotent on every plan whose first
normalization succeeds and yields only steps whose command, when it is a
string, contains no space character.  (In general it is not idempotent:
shell quoting can leave a space inside a surviving command token, which the
second pass splits again — see the counterexample.) -/
theorem C7_amended (p w : JVal) (hw : normalize_plan p = Except.ok w)
    (hns : noResplitCommands w = true) :
    normalize_plan w = Except.ok w := by
  cases p with
  | jobj fields =>
    cases hl : lookupField fields "plan" with
    | none =>
      have hwp : w = JVal.jobj fields := by
        simp only [normalize_plan, hl] at hw
        exact ((Except.ok.injEq _ _).mp hw).symm
      rw [hwp]
      simp [normalize_plan, hl]
    | some v =>
      cases v with
      | jarr steps =>
        simp only [normalize_plan, hl] at hw
        cases hps : process_steps steps with
        | error e => rw [hps] at hw; exact absurd hw (by simp)
        | ok ns =>
          rw [hps] at hw
          dsimp only at hw
          have hwv : w = JVal.jobj (setField fields "plan" (JVal.jarr ns)) :=
            ((Except.ok.injEq _ _).mp hw).symm
          have hlw : lookupField (setField fields "plan" (JVal.jarr ns)) "plan" =
              some (JVal.jarr ns) :=
            lookupField_setField fields "plan" (JVal.jarr ns) (by rw [hl]; rfl)
          have hmem := process_steps_members steps ns hps
          have hall : ∀ st ∈ ns, ∃ c as,
              st = JVal.jobj [("command", c), ("args", JVal.jarr as)] ∧
              pyTruthy c = true ∧ is_step_safe c as = true ∧
              pyContainsSpace c = Except.ok false := by
            intro st hst
            obtain ⟨c, as, hsteq, ht, hs, b, hb, hbs⟩ := hmem st hst
            refine ⟨c, as, hsteq, ht, hs, ?_⟩
            cases b with
            | false => exact hb
            | true =>
              exfalso
              obtain ⟨s, hcs⟩ := hbs rfl
              subst hcs
              have hnsw := hns
              rw [hwv] at hnsw
              unfold noResplitCommands at hnsw
              dsimp only at hnsw
              rw [hlw] at hnsw
              dsimp only at hnsw
              have hpred := List.all_eq_true.mp hnsw st hst
              rw [hsteq] at hpred
              dsimp only at hpred
              have hlx : lookupField
                  [("command", JVal.jstr s), ("args", JVal.jarr as)] "command" =
                  some (JVal.jstr s) := by
                simp [lookupField]
              rw [hlx] at hpred
              dsimp only at hpred
              simp only [pyContainsSpace, Except.ok.injEq] at hb
              simp only [decide_eq_true_eq] at hpred
              simp at hpred
              exact hpred (by simpa using hb)
          have hsecond := process_steps_second ns hall
          rw [hwv]
          simp only [normalize_plan, hlw, hsecond]
          rw [setField_setField]
      | jnull =>
        have hwp : w = JVal.jobj fields := by
          simp only [normalize_plan, hl] at hw
          exact ((Except.ok.injEq _ _).mp hw).symm
        rw [hwp]
        simp [normalize_plan, hl]
      | jbool b =>
        have hwp : w = JVal.jobj fields := by
          simp only [normalize_plan, hl] at hw
          exact ((Except.ok.injEq _ _).mp hw).symm
        rw [hwp]
        simp [normalize_plan, hl]
      | jnum n =>
        have hwp : w = JVal.jobj fields := by
          simp only [normalize_plan, hl] at hw
          exact ((Except.ok.injEq _ _).mp hw).symm
        rw [hwp]
        simp [normalize_plan, hl]
      | jstr s =>
        have hwp : w = JVal.jobj fields := by
          simp only [normalize_plan, hl] at hw
          exact ((Except.ok.injEq _ _).mp hw).symm
        rw [hwp]
        simp [normalize_plan, hl]
      | jobj f =>
        have hwp : w = JVal.jobj fields := by
          simp only [normalize_plan, hl] at hw
          exact ((Except.ok.injEq _ _).mp hw).symm
        rw [hwp]
        simp [normalize_plan, hl]
  | jnull =>
    have hwp : w = JVal.jnull := ((Except.ok.injEq _ _).mp hw).symm
    rw [hwp]; rfl
  | jbool b =>
    have hwp : w = JVal.jbool b := ((Except.ok.injEq _ _).mp hw).symm
    rw [hwp]; rfl
  | jnum n =>
    have hwp : w = JVal.jnum n := ((Except.ok.injEq _ _).mp hw).symm
    rw [hwp]; rfl
  | jstr s =>
    have hwp : w = JVal.jstr s := ((Except.ok.injEq _ _).mp hw).symm
    rw [hwp]; rfl
  | jarr xs =>
    have hwp : w = JVal.jarr xs := ((Except.ok.injEq _ _).mp hw).symm
    rw [hwp]; rfl

/-- Witness for the amended C7: normalizing `{"plan": ["ls -la"]}` once and
then again reproduces the once-normalized plan. -/
theorem C7_amended_witness :
    normalize_plan (JVal.jobj [("plan", JVal.jarr
      [JVal.jobj [("command", JVal.jstr "ls"), ("args", JVal.jarr [JVal.jstr "-la"])]])]) =
    Except.ok (JVal.jobj [("plan", JVal.jarr
      [JVal.jobj [("command", JVal.jstr "ls"), ("args", JVal.jarr [JVal.jstr "-la"])]])]) :=
  C7_amended (JVal.jobj [("plan", JVal.jarr [JVal.jstr "ls -la"])])
    (JVal.jobj [("plan", JVal.jarr
      [JVal.jobj [("command", JVal.jstr "ls"), ("args", JVal.jarr [JVal.jstr "-la"])]])])
    (by rfl) (by rfl)

/-! ## Claims about history compression -/

/-- A 6-entry history whose serialized size is far below the threshold. -/
def histC8 : List HistoryEntry :=
  [⟨"user", "install python"⟩, ⟨"assistant", "plan 1"⟩, ⟨"system", "result 1"⟩,
   ⟨"assistant", "plan 2"⟩, ⟨"system", "result 2"⟩, ⟨"system", "result 3"⟩]

set_option maxRecDepth 4096 in
/-- C8 counterexample: with more than 5 entries and a failing summarization
backend, `summarize_old_history` does *not* produce the
`[first] + [placeholder note] + [last 3]` splice — the fallback is
`compress_history`, which returns the 6-entry history **unchanged** (its
serialized size is within the threshold), i.e. an uncompressed history. -/
theorem C8_counterexample :
    summarize_old_history none 10 histC8 = some histC8 ∧ histC8.length = 6 := by
  constructor
  · decide
  · rfl

/-- The `history[1:-3]` slice of a history with more than 5 entries is
non-empty. -/
theorem to_summarize_nonempty (history : List HistoryEntry)
    (hlen : 5 < history.length) :
    ((history.drop 1).take (history.length - 4)).isEmpty = false := by
  cases hcl : (history.drop 1).take (history.length - 4) with
  | cons a l => rfl
  | nil =>
    exfalso
    have := congrArg List.length hcl
    simp [List.length_take, List.length_drop] at this
    omega

/-- With a successful backend, a history of more than 5 entries is spliced
to `[first] + [summary note] + [last 3]`. -/
theorem summarize_splice_ok (history : List HistoryEntry) (resp : String)
    (fuel : Nat) (hlen : 5 < history.length) :
    summarize_old_history (some resp) (fuel + 1) history =
      some (history.take 1
        ++ [⟨"system", "Previous session summary: " ++ pyStrip resp⟩]
        ++ history.drop (history.length - 3)) := by
  unfold summarize_old_history
  rw [if_neg (by omega)]
  dsimp only
  rw [to_summarize_nonempty history hlen]
  rfl

/-- With a failing backend, the `compress_history` fallback returns the
history unchanged whenever its serialized size is within the threshold. -/
theorem summarize_fallback_unchanged (history : List HistoryEntry) (fuel : Nat)
    (hlen : 5 < history.length)
    (hsize : estimate_context_size history ≤ MAX_CONTEXT_SIZE) :
    summarize_old_history none (fuel + 1) history = some history := by
  unfold summarize_old_history
  rw [if_neg (by omega)]
  dsimp only
  rw [to_summarize_nonempty history hlen]
  simp [hsize]

/-- C8 (amended): when the backend succeeds, a history of more than 5
entries is spliced to `[first] + [summary note] + [last 3]`; when the
backend fails, the fallback is `compress_history`, which returns the
history unchanged whenever its serialized size is at most
`MAX_CONTEXT_SIZE` (and otherwise retries the summarization, diverging if
the backend keeps failing). -/
theorem C8_compression_splice :
    (∀ (history : List HistoryEntry) (resp : String) (fuel : Nat),
      5 < history.length →
      summarize_old_history (some resp) (fuel + 1) history =
        some (history.take 1
          ++ [⟨"system", "Previous session summary: " ++ pyStrip resp⟩]
          ++ history.drop (history.length - 3)))
  ∧ (∀ (history : List HistoryEntry) (fuel : Nat),
      5 < history.length →
      estimate_context_size history ≤ MAX_CONTEXT_SIZE →
      summarize_old_history none (fuel + 1) history = some history) :=
  ⟨summarize_splice_ok, summarize_fallback_unchanged⟩

set_option maxRecDepth 4096 in
/-- Witness for the amended C8 at `histC8`: the successful-backend splice
and the failing-backend unchanged fallback. -/
theorem C8_compression_splice_witness :
    summarize_old_history (some "S") 1 histC8 =
      some [⟨"user", "install python"⟩,
            ⟨"system", "Previous session summary: S"⟩,
            ⟨"assistant", "plan 2"⟩, ⟨"system", "result 2"⟩,
            ⟨"system", "result 3"⟩] ∧
    summarize_old_history none 1 histC8 = some histC8 := by
  constructor
  · have h := C8_compression_splice.1 histC8 "S" 0 (by decide)
    exact h.trans (by rfl)
  · exact C8_compression_splice.2 histC8 0 (by decide) (by decide)

/-! ## Claims about the control loop -/

/-- Environment modelling a session whose execution phase fails on every
pass (e.g. the model keeps returning invalid JSON): small history, no
terminal attached. -/
def envC4 : LoopEnv :=
  ⟨fun _ => some "s", fun _ => some "s", fun _ => "plan text",
   fun _ => false, fun _ => [⟨"system", "AI returned invalid JSON: x"⟩],
   fun _ => false, false, fun _ => ""⟩

def histC4 : List HistoryEntry := [⟨"user", "install python"⟩]

set_option maxRecDepth 8192 in
/-- C4, evaluated at the failing input: in a session where every pass's
execution fails, the loop `continue`s past iteration control and the
ceiling check on every pass, so after 12 passes the iteration counter is 12
— beyond the claimed hard ceiling of 10 — and the loop is still running;
the max-iterations stop never fires. -/
theorem C4_ceiling_bypassed_on_failure :
    (runLoop envC4 12 0 0 histC4).1 = PassExit.running ∧
    (runLoop envC4 12 0 0 histC4).2.1 = 12 ∧ 10 < 12 := by
  refine ⟨by decide, by decide, by decide⟩

/-- Any compression event recorded by `handle_iteration_control` (the
user-restart and the auto-at-5 compressions, including their
fallback-on-failure path inside `summarize_old_history`) carries counter
value 0 — the function returns 0 as the new iteration counter on those
branches. -/
theorem handle_iteration_control_events (env : LoopEnv) (k it : Nat)
    (hist : List HistoryEntry)
    (r : Bool × List HistoryEntry × Nat × List (CompressKind × Nat))
    (hr : handle_iteration_control env k it hist = some r) :
    ∀ e ∈ r.2.2.2,
      e.2 = 0 ∧ (e.1 = CompressKind.userRestart ∨ e.1 = CompressKind.autoFive) := by
  intro e he
  unfold handle_iteration_control at hr
  by_cases h1 : 3 ≤ it ∧ env.isatty = true
  · rw [if_pos h1] at hr
    by_cases hq : env.userChoice k = "q"
    · rw [if_pos hq] at hr
      cases hr
      simp at he
    · rw [if_neg hq] at hr
      by_cases hrr : env.userChoice k = "r"
      · rw [if_pos hrr] at hr
        cases hsum : summarize_old_history (env.ctrlSum k) compressFuel hist with
        | none => rw [hsum] at hr; cases hr
        | some h' =>
          rw [hsum] at hr
          cases hr
          obtain rfl := List.mem_singleton.mp he
          exact ⟨rfl, Or.inl rfl⟩
      · rw [if_neg hrr] at hr
        by_cases ha : env.userChoice k = "a"
        · rw [if_pos ha] at hr; cases hr; simp at he
        · rw [if_neg ha] at hr; cases hr; simp at he
  · rw [if_neg h1] at hr
    by_cases h5 : 5 ≤ it
    · rw [if_pos h5] at hr
      cases hsum : summarize_old_history (env.ctrlSum k) compressFuel hist with
      | none => rw [hsum] at hr; cases hr
      | some h' =>
        rw [hsum] at hr
        cases hr
        obtain rfl := List.mem_singleton.mp he
        exact ⟨rfl, Or.inr rfl⟩
    · rw [if_neg h5] at hr; cases hr; simp at he

/-- Decomposition of a pass's compression events: planning-phase events
carry the (incremented, never reset) counter `it0 + 1`, and all other
events come from iteration control with counter 0. -/
theorem loopPass_events (env : LoopEnv) (k it0 : Nat) (hist : List HistoryEntry) :
    ∃ ev1 ev2, (loopPass env k it0 hist).events = ev1 ++ ev2 ∧
      (ev1 = [] ∨ ev1 = [(CompressKind.planningSize, it0 + 1)]) ∧
      (∀ e ∈ ev2,
        e.2 = 0 ∧ (e.1 = CompressKind.userRestart ∨ e.1 = CompressKind.autoFive)) := by
  unfold loopPass
  dsimp only
  by_cases hsz : estimate_context_size hist > MAX_CONTEXT_SIZE
  · rw [if_pos hsz]
    cases hsum : summarize_old_history (env.planSum k) compressFuel hist with
    | none =>
      exact ⟨[], [], rfl, Or.inl rfl, by simp⟩
    | some h1 =>
      dsimp only
      by_cases hex : env.execSuccess k = true
      · rw [if_neg (by simp [hex])]
        by_cases hcomp : env.taskComplete k = true
        · rw [if_pos hcomp]
          exact ⟨[(CompressKind.planningSize, it0 + 1)], [], by simp, Or.inr rfl, by simp⟩
        · rw [if_neg hcomp]
          cases hctrl : handle_iteration_control env k (it0 + 1)
              ((h1 ++ [⟨"assistant", env.aiResponse k⟩]) ++ env.execAppends k) with
          | none =>
            exact ⟨[(CompressKind.planningSize, it0 + 1)], [], by simp, Or.inr rfl, by simp⟩
          | some r =>
            obtain ⟨cont, h4, it2, ev2⟩ := r
            dsimp only
            have hev2 := handle_iteration_control_events env k (it0 + 1) _ _ hctrl
            by_cases hcont : cont = true
            · by_cases h10 : it2 > 10
              · rw [if_neg (by simp [hcont]), if_pos h10]
                exact ⟨[(CompressKind.planningSize, it0 + 1)], ev2, rfl, Or.inr rfl, hev2⟩
              · rw [if_neg (by simp [hcont]), if_neg h10]
                exact ⟨[(CompressKind.planningSize, it0 + 1)], ev2, rfl, Or.inr rfl, hev2⟩
            · rw [if_pos (by simp [hcont])]
              exact ⟨[(CompressKind.planningSize, it0 + 1)], ev2, rfl, Or.inr rfl, hev2⟩
      · rw [if_pos (by simp [hex])]
        exact ⟨[(CompressKind.planningSize, it0 + 1)], [], by simp, Or.inr rfl, by simp⟩
  · rw [if_neg hsz]
    dsimp only
    by_cases hex : env.execSuccess k = true
    · rw [if_neg (by simp [hex])]
      by_cases hcomp : env.taskComplete k = true
      · rw [if_pos hcomp]
        exact ⟨[], [], rfl, Or.inl rfl, by simp⟩
      · rw [if_neg hcomp]
        cases hctrl : handle_iteration_control env k (it0 + 1)
            ((hist ++ [⟨"assistant", env.aiResponse k⟩]) ++ env.execAppends k) with
        | none =>
          exact ⟨[], [], rfl, Or.inl rfl, by simp⟩
        | some r =>
          obtain ⟨cont, h4, it2, ev2⟩ := r
          dsimp only
          have hev2 := handle_iteration_control_events env k (it0 + 1) _ _ hctrl
          by_cases hcont : cont = true
          · by_cases h10 : it2 > 10
            · rw [if_neg (by simp [hcont]), if_pos h10]
              exact ⟨[], ev2, rfl, Or.inl rfl, hev2⟩
            · rw [if_neg (by simp [hcont]), if_neg h10]
              exact ⟨[], ev2, rfl, Or.inl rfl, hev2⟩
          · rw [if_pos (by simp [hcont])]
            exact ⟨[], ev2, rfl, Or.inl rfl, hev2⟩
    · rw [if_pos (by simp [hex])]
      exact ⟨[], [], rfl, Or.inl rfl, by simp⟩

/-- C5 (amended): after the user-triggered and the auto-at-5 compression
events (including their fallback-on-failure path) the session iteration
counter is 0, as the claim says; but after the compression performed during
planning (serialized history size over the threshold) the counter keeps its
incremented value `it0 + 1` — the planning phase never resets it. -/
theorem C5_compression_counter (env : LoopEnv) (k it0 : Nat)
    (hist : List HistoryEntry) :
    ∀ e ∈ (loopPass env k it0 hist).events,
      ((e.1 = CompressKind.userRestart ∨ e.1 = CompressKind.autoFive) → e.2 = 0) ∧
      (e.1 = CompressKind.planningSize → e.2 = it0 + 1) := by
  intro e he
  obtain ⟨ev1, ev2, hev, hd, hc⟩ := loopPass_events env k it0 hist
  rw [hev] at he
  rcases List.mem_append.mp he with hm | hm
  · rcases hd with rfl | rfl
    · cases hm
    · obtain rfl := List.mem_singleton.mp hm
      refine ⟨fun hk => ?_, fun _ => rfl⟩
      rcases hk with hk | hk <;> cases hk
  · obtain ⟨hz, hk⟩ := hc e hm
    refine ⟨fun _ => hz, fun hp => ?_⟩
    rcases hk with hk | hk <;> rw [hk] at hp <;> cases hp

/-- Environment for the C5 counterexample: two failed passes have already
happened (counter 2) and the history has grown past the size threshold; the
execution phase keeps failing. -/
def envC5 : LoopEnv :=
  ⟨fun _ => some "summary of the session so far", fun _ => some "s",
   fun _ => "", fun _ => false, fun _ => [], fun _ => false, false, fun _ => ""⟩

/-- An over-threshold history: one user request plus 100 bulky system
entries (serialized size well over `MAX_CONTEXT_SIZE`). -/
def bigHistC5 : List HistoryEntry :=
  ⟨"user", "install python"⟩ ::
    List.replicate 100 ⟨"system", "Executed a command. Exit code: 1. Result: error output"⟩

/-- `charCount` is list length plus the accumulator. -/
theorem charCount_eq (l : List Char) : ∀ n, charCount l n = l.length + n := by
  induction l with
  | nil => intro n; simp [charCount]
  | cons c cs ih => intro n; rw [charCount, ih]; simp; omega

/-- Serialized length of `n + 1` identical entries. -/
theorem history_json_entries_replicate (e : HistoryEntry) :
    ∀ n, (history_json_entries (List.replicate (n + 1) e)).length =
      (n + 1) * (entry_json e).length + n * 2 := by
  intro n
  induction n with
  | zero => simp [history_json_entries]
  | succ m ih =>
    rw [List.replicate_succ]
    rw [List.replicate_succ]
    rw [show history_json_entries (e :: e :: List.replicate m e) =
        entry_json e ++ ", " ++ history_json_entries (e :: List.replicate m e) from rfl]
    rw [← List.replicate_succ]
    simp only [String.length_append] at ih ⊢
    rw [ih, show (", ").length = 2 from rfl]
    ring

set_option maxRecDepth 2048 in
/-- The serialized size of `bigHistC5` exceeds the compression threshold. -/
theorem bigHistC5_size : MAX_CONTEXT_SIZE < estimate_context_size bigHistC5 := by
  have h1 : estimate_context_size bigHistC5 = (history_json bigHistC5).length := by
    unfold estimate_context_size
    rw [charCount_eq]
    rfl
  have h2 : history_json_entries bigHistC5 =
      entry_json ⟨"user", "install python"⟩ ++ ", " ++
        history_json_entries (List.replicate 100
          ⟨"system", "Executed a command. Exit code: 1. Result: error output"⟩) := by
    rw [show bigHistC5 = ⟨"user", "install python"⟩ ::
        List.replicate 100
          ⟨"system", "Executed a command. Exit code: 1. Result: error output"⟩ from rfl]
    rw [show (100 : Nat) = 99 + 1 from rfl, List.replicate_succ]
    rfl
  have h3 := history_json_entries_replicate
    ⟨"system", "Executed a command. Exit code: 1. Result: error output"⟩ 99
  have h4 : (entry_json (⟨"system",
      "Executed a command. Exit code: 1. Result: error output"⟩ : HistoryEntry)).length = 87 := by
    decide
  have h5 : (entry_json (⟨"user", "install python"⟩ : HistoryEntry)).length = 45 := by
    decide
  rw [h1]
  unfold history_json
  rw [h2]
  simp only [String.length_append, h3, h4, h5]
  rw [show ("[").length = 1 from rfl, show ("]").length = 1 from rfl,
    show (", ").length = 2 from rfl]
  norm_num [MAX_CONTEXT_SIZE]

/-- C5 counterexample: on a pass entered with counter 2 and an oversized
history, the planning phase compresses the history, and the counter
immediately after that compression event is 3, not 0 — refuting "the
counter is 0 immediately after every history-compression event". -/
theorem C5_counterexample :
    ¬ (∀ e ∈ (loopPass envC5 0 2 bigHistC5).events, e.2 = 0) := by
  intro hcl
  have hlen : 5 < bigHistC5.length := by
    rw [show bigHistC5.length = 101 from by simp [bigHistC5]]
    omega
  have hsum : summarize_old_history (envC5.planSum 0) compressFuel bigHistC5 =
      some (bigHistC5.take 1
        ++ [⟨"system", "Previous session summary: " ++
              pyStrip "summary of the session so far"⟩]
        ++ bigHistC5.drop (bigHistC5.length - 3)) :=
    summarize_splice_ok bigHistC5 "summary of the session so far" 4 hlen
  have hev : (loopPass envC5 0 2 bigHistC5).events =
      [(CompressKind.planningSize, 3)] := by
    unfold loopPass
    dsimp only
    rw [if_pos bigHistC5_size, hsum]
    rfl
  have h3 := hcl (CompressKind.planningSize, 3) (by rw [hev]; exact List.mem_singleton.mpr rfl)
  exact absurd h3 (by decide)

/-- Environment for the C5 witness: a terminal is attached, execution
succeeds, the task is incomplete, and the user picks the restart choice. -/
def envC5w : LoopEnv :=
  ⟨fun _ => some "s", fun _ => some "s", fun _ => "p", fun _ => true,
   fun _ => [], fun _ => false, true, fun _ => "r"⟩

set_option maxRecDepth 4096 in
/-- Witness for the amended C5: a pass with a user-triggered compression
event records that event with counter 0. -/
theorem C5_compression_counter_witness :
    (CompressKind.userRestart, 0) ∈ (loopPass envC5w 0 2 histC8).events ∧
    ((CompressKind.userRestart, 0) : CompressKind × Nat).2 = 0 :=
  ⟨by decide,
   (C5_compression_counter envC5w 0 2 histC8 (CompressKind.userRestart, 0)
      (by decide)).1 (Or.inl rfl)⟩
